import Mathlib

/-!
# Shallow embedding of `tf2_bot_detector`'s `WorldState.cpp`

This file embeds the session-model / reconciliation core of
`src/tf2_bot_detector/WorldState.cpp` in Lean and proves the frozen claims
about it.

Modelling conventions:
* `SteamID` is a bare `Nat` (an opaque 64-bit identifier compared by value).
* `time_point_t` values (timestamps) are `Nat` (seconds since epoch;
  a default-constructed time point is `0`).
* `duration_t` values (connection durations) are `Int` seconds, so that the
  delta computation `old - new` in the jitter-suppression test can go
  negative exactly as in the source.
* `std::unordered_map<SteamID, PlayerExtraData> m_CurrentPlayerData` is an
  association list with unique keys; `emplace` appends at the end.
* `std::vector<LobbyMember>` is a `List LobbyMember`; `resize` truncates or
  pads with default-constructed (invalid) members.
* Functions that `throw` are embedded with `Except String`.
* The `cppcoro::generator` returned by `GetLobbyMembers` is embedded as the
  eager list of the players it yields (or the error it throws while being
  iterated).
-/

namespace TF2BD

/-- Opaque 64-bit stable player identifier, equality by value
(`SteamID` in the source). A default-constructed / invalid id is `0`. -/
abbrev SteamID := Nat

/-- Modelled from the spec: the lobby team enum (`LobbyMemberTeam`, declared
in a header that is not under `src/`) is a small closed set consisting of the
two opposing sides.  The source file uses the literal `Defenders` and applies
`OppositeTeam` to values of this type. -/
inductive LobbyMemberTeam where
  | Invaders
  | Defenders
deriving DecidableEq, Repr, Fintype

/-- Modelled from the spec: `OppositeTeam` (declared in a header not under
`src/`) swaps the two opposing sides. -/
def OppositeTeam : LobbyMemberTeam → LobbyMemberTeam
  | .Invaders => .Defenders
  | .Defenders => .Invaders

/-- Result of comparing two (optional) teams; `Neither` is the source's name
for the spec's `Unknown`.  From the uses in `WorldState.cpp`
(`GetTeamShareResult`). -/
inductive TeamShareResult where
  | SameTeams
  | OppositeTeams
  | Neither
deriving DecidableEq, Repr, Fintype

/-- In-game team, from the use `TFTeam::Red` / `TFTeam::Blue` in
`WorldState.cpp` (enum declared outside `src/`). -/
inductive TFTeam where
  | Unassigned
  | Spectator
  | Red
  | Blue
deriving DecidableEq, Repr

/-- Modelled from the spec: player lifecycle state
(e.g. connecting / active / disconnecting); the source only tests
`PlayerStatusState::Active`. -/
inductive PlayerStatusState where
  | Connecting
  | Active
  | Disconnecting
deriving DecidableEq, Repr

/-- Lobby change type, from the uses `LobbyChangeType::Created` /
`LobbyChangeType::Updated` in `WorldState.cpp`. -/
inductive LobbyChangeType where
  | Created
  | Updated
  | Destroyed
deriving DecidableEq, Repr

/-- One positional lobby slot entry (`LobbyMember`, declared outside `src/`;
the fields below are the ones `WorldState.cpp` reads: `m_SteamID`, `m_Team`,
`m_Index`, `m_Pending`, and a validity flag behind `IsValid()`).
Modelled from the spec: a slot is invalid (empty, default-constructed) until
first written. -/
structure LobbyMember where
  m_SteamID : SteamID := 0
  m_Team : LobbyMemberTeam := .Invaders
  m_Index : Nat := 0
  m_Pending : Bool := false
  m_Valid : Bool := false
deriving DecidableEq, Repr

/-- `LobbyMember::IsValid()`: modelled from the spec as the validity flag
("a slot is invalid (empty) until first written; invalid slots are skipped
by all iteration"). -/
def LobbyMember.IsValid (m : LobbyMember) : Bool := m.m_Valid

/-- Transient per-status-line snapshot (`PlayerStatus`); the fields
`WorldState.cpp` reads/writes: identifier, name, ping, lifecycle state,
connection duration, client index. -/
structure PlayerStatus where
  m_SteamID : SteamID := 0
  m_Name : String := ""
  m_Ping : Nat := 0
  m_State : PlayerStatusState := .Connecting
  m_ConnectionTime : Int := 0
  m_ClientIndex : Nat := 0
deriving DecidableEq, Repr

/-- Kill/death counters (`m_Scores` in `PlayerExtraData`). -/
structure PlayerScores where
  m_Kills : Nat := 0
  m_Deaths : Nat := 0
  m_LocalKills : Nat := 0
  m_LocalDeaths : Nat := 0
deriving DecidableEq, Repr

/-- The durable per-session player record
(`WorldState::PlayerExtraData`), restricted to the state the claims are
about (the lazily-fetched enrichment slots, the back pointer to the world
and the type-erased side storage are omitted). -/
structure PlayerExtraData where
  m_Status : PlayerStatus := {}
  m_ClientIndex : Nat := 0
  m_Team : TFTeam := .Unassigned
  m_Scores : PlayerScores := {}
  m_LastStatusActiveBegin : Nat := 0
  m_LastStatusUpdateTime : Nat := 0
  m_LastPingUpdateTime : Nat := 0
deriving DecidableEq, Repr

instance : Inhabited PlayerExtraData := ⟨{}⟩

/-- `PlayerExtraData::PlayerExtraData(world, id)`: default-construct
everything, then set `m_Status.m_SteamID = id`. -/
def PlayerExtraData.init (id : SteamID) : PlayerExtraData :=
  { m_Status := { m_SteamID := id } }

/-- `PlayerExtraData::GetSteamID()` returns `m_Status.m_SteamID`. -/
def PlayerExtraData.GetSteamID (p : PlayerExtraData) : SteamID :=
  p.m_Status.m_SteamID

/-- `PlayerExtraData::SetStatus(status, timestamp)` (WorldState.cpp
lines 768-776): record the beginning of an "active" interval on a
transition into `Active`, overwrite the whole status, and stamp both the
status- and ping-update times.  (The derived `m_PlayerNameSafe` field is
omitted; nothing here reads it.) -/
def PlayerExtraData.SetStatus (p : PlayerExtraData) (status : PlayerStatus)
    (timestamp : Nat) : PlayerExtraData :=
  { p with
    m_LastStatusActiveBegin :=
      if p.m_Status.m_State ≠ .Active ∧ status.m_State = .Active then
        timestamp
      else p.m_LastStatusActiveBegin
    m_Status := status
    m_LastStatusUpdateTime := timestamp
    m_LastPingUpdateTime := timestamp }

/-- The session model store (`WorldState`), restricted to the fields the
reconciliation switch and the queries under verification touch. -/
structure WorldState where
  m_CurrentPlayerData : List (SteamID × PlayerExtraData) := []
  m_CurrentLobbyMembers : List LobbyMember := []
  m_PendingLobbyMembers : List LobbyMember := []
  m_IsVoteInProgress : Bool := false
  m_IsLocalPlayerInitialized : Bool := false
  m_LastStatusUpdateTime : Nat := 0
deriving DecidableEq, Repr

/-- `m_CurrentPlayerData.find(id)` (used by `WorldState::FindPlayer` and
`FindOrCreatePlayer`): first association-list entry with the given key. -/
def findPlayerData (players : List (SteamID × PlayerExtraData))
    (id : SteamID) : Option PlayerExtraData :=
  (players.find? (fun p => p.1 = id)).map (·.2)

/-- `WorldState::FindOrCreatePlayer(id)` (lines 635-645): return the table
(unchanged, or with a freshly `emplace`d record keyed by `id`) together
with the record the returned reference denotes. -/
def FindOrCreatePlayer (players : List (SteamID × PlayerExtraData))
    (id : SteamID) : List (SteamID × PlayerExtraData) × PlayerExtraData :=
  match players.find? (fun p => p.1 = id) with
  | some p => (players, p.2)
  | none => (players ++ [(id, PlayerExtraData.init id)], PlayerExtraData.init id)

/-- Writing through the reference obtained from `FindOrCreatePlayer` /
`find`: replace the (unique) entry keyed `id` by `f` of it. -/
def updatePlayerData (players : List (SteamID × PlayerExtraData))
    (id : SteamID) (f : PlayerExtraData → PlayerExtraData) :
    List (SteamID × PlayerExtraData) :=
  players.map (fun p => if p.1 = id then (p.1, f p.2) else p)

/-- `std::vector<LobbyMember>::resize(n)`: keep the first `n` entries, pad
with default-constructed (invalid) members up to length `n`. -/
def resizeMembers (l : List LobbyMember) (n : Nat) : List LobbyMember :=
  l.take n ++ List.replicate (n - l.length) ({} : LobbyMember)

/-- The connection-time patch applied by the `PlayerStatus` branch of
`WorldState::OnConsoleLineParsed` (lines 531-536): keep the previously
stored connection duration whenever the raw delta is strictly inside
`(-2s, 2s)`, otherwise accept the new raw duration. -/
def connStep (oldConn newConn : Int) : Int :=
  if oldConn - newConn < 2 ∧ oldConn - newConn > -2 then oldConn else newConn

/-- The typed console-line records (`IConsoleLine` subclasses) whose
handling in `WorldState::OnConsoleLineParsed` the claims are about.  The
remaining `ConsoleLineType`s either only emit events / toggle flags or are
compiled out (`#if 0`), and no claim mentions them. -/
inductive ConsoleLine where
  | LobbyHeader (memberCount pendingCount : Nat)
  | LobbyStatusFailed
  | LobbyChanged (changeType : LobbyChangeType)
  | LobbyMemberLine (member : LobbyMember)
  | PlayerStatusLine (status : PlayerStatus) (timestamp : Nat)
deriving DecidableEq, Repr

/-- The state mutation performed by `WorldState::OnConsoleLineParsed`
(lines 365-633) for the modelled record kinds.  Event-listener
notifications (`InvokeEventListener`) are pure observations of the
resulting state and are not part of the stored state. -/
def OnConsoleLineParsed (w : WorldState) (line : ConsoleLine) : WorldState :=
  match line with
  | .LobbyHeader memberCount pendingCount =>
    { w with
      m_CurrentLobbyMembers := resizeMembers w.m_CurrentLobbyMembers memberCount
      m_PendingLobbyMembers := resizeMembers w.m_PendingLobbyMembers pendingCount }
  | .LobbyStatusFailed =>
    if !w.m_CurrentLobbyMembers.isEmpty || !w.m_PendingLobbyMembers.isEmpty then
      { w with
        m_CurrentLobbyMembers := []
        m_PendingLobbyMembers := []
        m_CurrentPlayerData := [] }
    else w
  | .LobbyChanged changeType =>
    let w1 :=
      if changeType = .Created then
        { w with
          m_CurrentLobbyMembers := []
          m_PendingLobbyMembers := []
          m_CurrentPlayerData := [] }
      else w
    if changeType = .Created ∨ changeType = .Updated then
      { w1 with
        m_CurrentPlayerData :=
          w1.m_CurrentPlayerData.map (fun p => (p.1, { p.2 with m_ClientIndex := 0 })) }
    else w1
  | .LobbyMemberLine member =>
    let w1 :=
      if member.m_Pending then
        if member.m_Index < w.m_PendingLobbyMembers.length then
          { w with m_PendingLobbyMembers := w.m_PendingLobbyMembers.set member.m_Index member }
        else w
      else
        if member.m_Index < w.m_CurrentLobbyMembers.length then
          { w with m_CurrentLobbyMembers := w.m_CurrentLobbyMembers.set member.m_Index member }
        else w
    let tfTeam := if member.m_Team = .Defenders then TFTeam.Red else TFTeam.Blue
    let players := (FindOrCreatePlayer w1.m_CurrentPlayerData member.m_SteamID).1
    { w1 with
      m_CurrentPlayerData :=
        updatePlayerData players member.m_SteamID (fun d => { d with m_Team := tfTeam }) }
  | .PlayerStatusLine status timestamp =>
    let fc := FindOrCreatePlayer w.m_CurrentPlayerData status.m_SteamID
    let newStatus :=
      { status with
        m_ConnectionTime := connStep fc.2.m_Status.m_ConnectionTime status.m_ConnectionTime }
    let playerData := fc.2.SetStatus newStatus timestamp
    { w with
      m_CurrentPlayerData := updatePlayerData fc.1 status.m_SteamID (fun _ => playerData)
      m_LastStatusUpdateTime := max w.m_LastStatusUpdateTime playerData.m_LastStatusUpdateTime }

/-- The scan loop of `WorldState::FindSteamIDForName` (lines 137-152),
carrying the running `retVal` / `lastUpdated` pair; `lastUpdated` starts as
a default-constructed `time_point_t` (here `0`). -/
def findSteamIDForNameLoop (name : String) :
    List (SteamID × PlayerExtraData) → Option SteamID → Nat → Option SteamID
  | [], retVal, _ => retVal
  | d :: rest, retVal, lastUpdated =>
    if d.2.m_Status.m_Name = name ∧ d.2.m_LastStatusUpdateTime > lastUpdated then
      findSteamIDForNameLoop name rest (some d.2.GetSteamID) d.2.m_LastStatusUpdateTime
    else
      findSteamIDForNameLoop name rest retVal lastUpdated

/-- `WorldState::FindSteamIDForName(playerName)` (lines 137-152). -/
def FindSteamIDForName (w : WorldState) (playerName : String) : Option SteamID :=
  findSteamIDForNameLoop playerName w.m_CurrentPlayerData none 0

/-- `WorldState::GetTeamShareResult(team0, team1)` (lines 193-207); the
`throw std::runtime_error("Unexpected team value(s)")` is embedded as
`Except.error`. -/
def GetTeamShareResult (team0 team1 : Option LobbyMemberTeam) :
    Except String TeamShareResult :=
  match team0, team1 with
  | none, _ => .ok .Neither
  | _, none => .ok .Neither
  | some t0, some t1 =>
    if t0 = t1 then .ok .SameTeams
    else if t0 = OppositeTeam t1 then .ok .OppositeTeams
    else .error "Unexpected team value(s)"

/-- The `GetPlayer` lambda inside `WorldState::GetLobbyMembers`
(lines 229-244): look the member's id up in the player table and `throw
std::runtime_error("Missing player for lobby member!")` when absent. -/
def getPlayerForMember (players : List (SteamID × PlayerExtraData))
    (m : LobbyMember) : Except String PlayerExtraData :=
  match findPlayerData players m.m_SteamID with
  | some p => .ok p
  | none => .error "Missing player for lobby member!"

/-- One of the two yield loops of `WorldState::GetLobbyMembers`: skip
invalid members, skip members failing `pred` (for the pending loop, the
`std::any_of` duplicate-suppression test; for the confirmed loop `pred`
is constantly `true`), and look the rest up, propagating the
missing-player error. -/
def yieldLobbyMembers (players : List (SteamID × PlayerExtraData))
    (pred : LobbyMember → Bool) :
    List LobbyMember → Except String (List PlayerExtraData)
  | [] => .ok []
  | m :: rest =>
    if !m.IsValid then yieldLobbyMembers players pred rest
    else if !pred m then yieldLobbyMembers players pred rest
    else do
      let p ← getPlayerForMember players m
      let ps ← yieldLobbyMembers players pred rest
      return p :: ps

/-- The duplicate-suppression test of the pending loop in
`WorldState::GetLobbyMembers` (lines 259-264): a pending member is yielded
only if no entry of `m_CurrentLobbyMembers` carries the same id. -/
def notInCurrentLobby (current : List LobbyMember) (m : LobbyMember) : Bool :=
  !current.any (fun m2 => m.m_SteamID = m2.m_SteamID)

/-- `WorldState::GetLobbyMembers()` (lines 227-269), embedded as the list
of players the generator yields — confirmed-slot occupants first, then the
non-duplicate pending-slot occupants — or the error it throws. -/
def GetLobbyMembers (w : WorldState) : Except String (List PlayerExtraData) := do
  let cur ← yieldLobbyMembers w.m_CurrentPlayerData (fun _ => true)
    w.m_CurrentLobbyMembers
  let pend ← yieldLobbyMembers w.m_CurrentPlayerData
    (notInCurrentLobby w.m_CurrentLobbyMembers) w.m_PendingLobbyMembers
  return cur ++ pend

/-- The ordering `std::sort` is invoked with in `GetRecentPlayersImpl`
(line 298-302): `a` precedes `b` when `b`'s last status update is at most
`a`'s (the comparator passed to `std::sort` is the strict
`b->GetLastStatusUpdateTime() < a->GetLastStatusUpdateTime()`; this is the
corresponding non-strict total order). -/
def recentOrder (a b : PlayerExtraData) : Prop :=
  b.m_LastStatusUpdateTime ≤ a.m_LastStatusUpdateTime

instance : DecidableRel recentOrder := fun _ _ =>
  inferInstanceAs (Decidable (_ ≤ _))

instance : IsTotal PlayerExtraData recentOrder :=
  ⟨fun a b => Nat.le_total b.m_LastStatusUpdateTime a.m_LastStatusUpdateTime⟩

instance : IsTrans PlayerExtraData recentOrder :=
  ⟨fun _ _ _ h1 h2 => Nat.le_trans h2 h1⟩

/-- Everything `std::sort` guarantees for the comparator of lines 298-302:
the output is a permutation of the input, sorted descending by last status
update.  The relative order of equal-timestamp elements is left
unspecified by `std::sort`, so the sort is embedded as an arbitrary
function satisfying exactly this contract, not as one fixed algorithm. -/
def StdSortSpec (sortImpl : List PlayerExtraData → List PlayerExtraData) : Prop :=
  ∀ l, (sortImpl l).Perm l ∧ (sortImpl l).Sorted recentOrder

/-- `static GetRecentPlayersImpl(map, recentPlayerCount)` (lines 289-308):
collect the table's players, sort them with `std::sort` — here any
`sortImpl`, to be constrained by `StdSortSpec` in the theorems — and
truncate to `recentPlayerCount`. -/
def GetRecentPlayersImpl (sortImpl : List PlayerExtraData → List PlayerExtraData)
    (players : List (SteamID × PlayerExtraData))
    (recentPlayerCount : Nat) : List PlayerExtraData :=
  (sortImpl (players.map (·.2))).take recentPlayerCount

/-- `WorldState::GetRecentPlayers(recentPlayerCount)` (lines 310-318). -/
def GetRecentPlayers (sortImpl : List PlayerExtraData → List PlayerExtraData)
    (w : WorldState) (recentPlayerCount : Nat) :
    List PlayerExtraData :=
  GetRecentPlayersImpl sortImpl w.m_CurrentPlayerData recentPlayerCount

/-- The loop of `static Take100(collection)` (lines 796-808): push ids in
collection order, stopping as soon as 100 have been collected. -/
def Take100Loop : List SteamID → List SteamID → List SteamID
  | retVal, [] => retVal
  | retVal, id :: rest =>
    if 100 ≤ retVal.length then retVal
    else Take100Loop (retVal ++ [id]) rest

/-- `static Take100(collection)` (lines 796-808).  Modelled from the spec:
the pending collection (`queue_collection_type`, declared outside `src/`)
iterates oldest-enqueued-first, so it is embedded as the
insertion-ordered list of pending ids. -/
def Take100 (collection : List SteamID) : List SteamID :=
  Take100Loop [] collection

/-- The API-availability inputs `SendRequest` consults
(`GetHTTPClient()` and `GetSteamAPIKey().empty()`). -/
structure APIContext where
  hasHTTPClient : Bool
  steamAPIKeyEmpty : Bool
deriving DecidableEq, Repr

/-- `WorldState::PlayerSummaryUpdateAction::SendRequest` (lines 810-824):
with no HTTP client or an empty API key no request is issued; otherwise one
batch request for `Take100 collection` is issued.  The pending collection
is only read, never modified, by `SendRequest` (ids are erased later, in
`OnDataReady`, one per returned entry); the second component is the pending
collection as it stands after the call. -/
def SendRequest (ctx : APIContext) (collection : List SteamID) :
    Option (List SteamID) × List SteamID :=
  if !ctx.hasHTTPClient then (none, collection)
  else if ctx.steamAPIKeyEmpty then (none, collection)
  else (some (Take100 collection), collection)

/-- The find-`'\n'`/`substr` loop of
`WorldStateConLog::AddConsoleOutputChunk` (lines 91-100): `cur` is the text
between `last` and the scan position; a line is emitted at each `'\n'`, and
whatever remains in `cur` when the chunk is exhausted is discarded. -/
def chunkLinesLoop (cur : List Char) : List Char → List (List Char)
  | [] => []
  | c :: rest =>
    if c = '\n' then cur :: chunkLinesLoop [] rest
    else chunkLinesLoop (cur ++ [c]) rest

/-- The substrings `AddConsoleOutputChunk` hands to
`AddConsoleOutputLine`: the maximal `'\n'`-free pieces strictly before each
`'\n'` of the chunk, in order. -/
def chunkLines (chunk : List Char) : List (List Char) :=
  chunkLinesLoop [] chunk

/-- What one dispatched console line turns into: a parsed-line notification
to every `OnConsoleLineParsed` listener, or an unparsed-text notification
to every `OnConsoleLineUnparsed` listener. -/
inductive ConLogEvent where
  | parsedLine (record : ConsoleLine)
  | unparsedLine (text : List Char)
deriving DecidableEq, Repr

/-- `WorldStateConLog::AddConsoleOutputLine(line)` (lines 102-115): run the
external parser and notify the parsed- or unparsed-line listeners. -/
def AddConsoleOutputLine (parse : List Char → Option ConsoleLine)
    (line : List Char) : ConLogEvent :=
  match parse line with
  | some record => .parsedLine record
  | none => .unparsedLine line

/-- `WorldStateConLog::AddConsoleOutputChunk(chunk)` (lines 91-100),
embedded as the sequence of listener notifications it produces. -/
def AddConsoleOutputChunk (parse : List Char → Option ConsoleLine)
    (chunk : List Char) : List ConLogEvent :=
  (chunkLines chunk).map (AddConsoleOutputLine parse)

/-- Reassembly of a chunk from its `'\n'`-terminated pieces and its
unterminated remainder. -/
def assembleChunk (pieces : List (List Char)) (rest : List Char) : List Char :=
  (pieces.map (fun p => p ++ ['\n'])).flatten ++ rest

/-- The stored connection duration of player `id` observed after each
status record of `recs` is applied in turn (`0` if — impossible after the
first record — the player is absent). -/
def storedConnTrace (w : WorldState) (id : SteamID) :
    List (PlayerStatus × Nat) → List Int
  | [] => []
  | r :: rest =>
    let w1 := OnConsoleLineParsed w (.PlayerStatusLine r.1 r.2)
    ((findPlayerData w1.m_CurrentPlayerData id).getD default).m_Status.m_ConnectionTime
      :: storedConnTrace w1 id rest

/-- The pure connection-duration recurrence cut out of the `PlayerStatus`
branch: the stored durations produced from initial stored value `s`
by the raw readings `raws`. -/
def connTrace (s : Int) : List Int → List Int
  | [] => []
  | r :: rest => connStep s r :: connTrace (connStep s r) rest

/-- Table invariant maintained by `FindOrCreatePlayer` (asserted at
line 643 of the source): every record's own id equals its table key. -/
def PlayerTableConsistent (players : List (SteamID × PlayerExtraData)) : Prop :=
  ∀ p ∈ players, p.2.m_Status.m_SteamID = p.1

deriving instance DecidableEq for Except

/-- Slot-sequence size evolution across the reconciliation switch: the
lobby-header record resizes to the declared counts, a lobby-status-failure
record always leaves both sizes zero (no-op when both were already empty,
full clear otherwise), a lobby-created change clears both, and every other
modelled record kind leaves the sizes untouched. -/
def slotSizesAfter (line : ConsoleLine) (sizes : Nat × Nat) : Nat × Nat :=
  match line with
  | .LobbyHeader memberCount pendingCount => (memberCount, pendingCount)
  | .LobbyStatusFailed => (0, 0)
  | .LobbyChanged changeType => if changeType = .Created then (0, 0) else sizes
  | .LobbyMemberLine _ => sizes
  | .PlayerStatusLine _ _ => sizes

/-! ### Concrete states used by witnesses and counterexamples -/

/-- A session state with one confirmed lobby slot occupied (and a matching
player record), plus a set vote flag, to exercise the full-reset path. -/
def exWorldNonEmptyLobby : WorldState :=
  { m_CurrentLobbyMembers := [{ m_SteamID := 5, m_Valid := true }]
    m_CurrentPlayerData := [(5, .init 5)]
    m_IsVoteInProgress := true }

/-- The state after a lobby header declaring 2 confirmed and 2 pending
slots arrives in a fresh session. -/
def exHeaderWorld : WorldState := OnConsoleLineParsed {} (.LobbyHeader 2 2)

/-- `exHeaderWorld` after a lobby-status-failure record: both slot
sequences are cleared even though the most recent header declared size 2. -/
def exClearedWorld : WorldState := OnConsoleLineParsed exHeaderWorld .LobbyStatusFailed

/-- A confirmed-slot member record declaring index 1. -/
def exMemberIdx1 : LobbyMember :=
  { m_SteamID := 7, m_Index := 1, m_Pending := false, m_Valid := true }

/-- A pending-slot member record declaring index 1. -/
def exMemberP : LobbyMember :=
  { m_SteamID := 9, m_Index := 1, m_Pending := true, m_Valid := true }

/-- Seven status records for player 1 whose raw connection durations are
10, 11, 12, 11, 10, 11, 12 — every successive raw delta is ±1 second. -/
def exJitterRecs : List (PlayerStatus × Nat) :=
  [({ m_SteamID := 1, m_ConnectionTime := 10 }, 1),
   ({ m_SteamID := 1, m_ConnectionTime := 11 }, 2),
   ({ m_SteamID := 1, m_ConnectionTime := 12 }, 3),
   ({ m_SteamID := 1, m_ConnectionTime := 11 }, 4),
   ({ m_SteamID := 1, m_ConnectionTime := 10 }, 5),
   ({ m_SteamID := 1, m_ConnectionTime := 11 }, 6),
   ({ m_SteamID := 1, m_ConnectionTime := 12 }, 7)]

/-- Four status records for player 1 with nondecreasing raw connection
durations 10, 11, 12, 13. -/
def exRisingRecs : List (PlayerStatus × Nat) :=
  [({ m_SteamID := 1, m_ConnectionTime := 10 }, 1),
   ({ m_SteamID := 1, m_ConnectionTime := 11 }, 2),
   ({ m_SteamID := 1, m_ConnectionTime := 12 }, 3),
   ({ m_SteamID := 1, m_ConnectionTime := 13 }, 4)]

/-- A player record named "a" with last status update at time 5. -/
def exTiePlayer (k : SteamID) : PlayerExtraData :=
  { m_Status := { m_SteamID := k, m_Name := "a" }, m_LastStatusUpdateTime := 5 }

/-- Two players with the same name and the same (tied) last-status-update
timestamp. -/
def exTieWorld : WorldState :=
  { m_CurrentPlayerData := [(1, exTiePlayer 1), (2, exTiePlayer 2)] }

/-- One player named "b" whose last-status-update timestamp is still the
default-constructed epoch value. -/
def exEpochWorld : WorldState :=
  { m_CurrentPlayerData :=
      [(3, { m_Status := { m_SteamID := 3, m_Name := "b" } })] }

/-- Two players named "a" with distinct positive timestamps (5 and 7). -/
def exFreshWorld : WorldState :=
  { m_CurrentPlayerData :=
      [(1, { m_Status := { m_SteamID := 1, m_Name := "a" }, m_LastStatusUpdateTime := 5 }),
       (2, { m_Status := { m_SteamID := 2, m_Name := "a" }, m_LastStatusUpdateTime := 7 })] }

/-- Two valid pending slots both occupied by id 7, with a player record
for 7 and no confirmed slots. -/
def exDupWorld : WorldState :=
  { m_PendingLobbyMembers :=
      [{ m_SteamID := 7, m_Index := 0, m_Pending := true, m_Valid := true },
       { m_SteamID := 7, m_Index := 1, m_Pending := true, m_Valid := true }]
    m_CurrentPlayerData := [(7, PlayerExtraData.init 7)] }

/-- A lobby with one valid confirmed occupant (id 1, with one invalid
slot), a duplicate pending entry for id 1 and a fresh pending entry for
id 2, with player records for both ids. -/
def exLobbyWorld : WorldState :=
  { m_CurrentLobbyMembers := [{ m_SteamID := 1, m_Valid := true }, {}]
    m_PendingLobbyMembers :=
      [{ m_SteamID := 1, m_Index := 0, m_Pending := true, m_Valid := true },
       { m_SteamID := 2, m_Index := 1, m_Pending := true, m_Valid := true }]
    m_CurrentPlayerData := [(1, PlayerExtraData.init 1), (2, PlayerExtraData.init 2)] }

/-- A valid confirmed slot occupant (id 5) with an empty player table. -/
def exMissingWorld : WorldState :=
  { m_CurrentLobbyMembers := [{ m_SteamID := 5, m_Valid := true }] }

/-- A `StdSortSpec`-conforming sort: the stable insertion sort by
`recentOrder`. -/
def exStableSort (l : List PlayerExtraData) : List PlayerExtraData :=
  l.insertionSort recentOrder

/-- Another `StdSortSpec`-conforming sort — a behavior an implementation
of `std::sort` is permitted to have: reverse the input, then
insertion-sort it.  The output is still a sorted permutation, but the
relative order of equal-timestamp elements is reversed. -/
def exUnstableSort (l : List PlayerExtraData) : List PlayerExtraData :=
  l.reverse.insertionSort recentOrder

/-! ## Helper lemmas -/

/-- Updating the entry keyed `id` moves `find?` along. -/
theorem find?_updatePlayerData (ps : List (SteamID × PlayerExtraData)) (id : SteamID)
    (f : PlayerExtraData → PlayerExtraData) :
    ∀ d, ps.find? (fun p => p.1 = id) = some d →
      (updatePlayerData ps id f).find? (fun p => p.1 = id) = some (d.1, f d.2) := by
  induction ps with
  | nil => intro d h; simp at h
  | cons p rest ih =>
    intro d h
    by_cases hp : p.1 = id
    · rw [List.find?_cons_of_pos _ (by simp [hp])] at h
      cases h
      simp only [updatePlayerData, List.map_cons, if_pos hp]
      rw [List.find?_cons_of_pos _ (by simp [hp])]
    · rw [List.find?_cons_of_neg _ (by simp [hp])] at h
      simp only [updatePlayerData, List.map_cons, if_neg hp]
      rw [List.find?_cons_of_neg _ (by simp [hp])]
      exact ih d h

/-- After `FindOrCreatePlayer`, the table contains an entry keyed `id`
holding exactly the record the call returned. -/
theorem find?_FindOrCreatePlayer (ps : List (SteamID × PlayerExtraData)) (id : SteamID) :
    (FindOrCreatePlayer ps id).1.find? (fun p => p.1 = id) =
      some (id, (FindOrCreatePlayer ps id).2) := by
  unfold FindOrCreatePlayer
  cases hf : ps.find? (fun p => p.1 = id) with
  | none =>
    simp only
    rw [List.find?_append, hf]
    simp
  | some d =>
    have h1 : d.1 = id := by simpa using List.find?_some hf
    simp only [hf]
    rw [← h1]

/-- The record `FindOrCreatePlayer` hands back is the one `find?` sees. -/
theorem FindOrCreatePlayer_snd_of_find? (ps : List (SteamID × PlayerExtraData))
    (id : SteamID) (d : SteamID × PlayerExtraData)
    (h : ps.find? (fun p => p.1 = id) = some d) :
    (FindOrCreatePlayer ps id).2 = d.2 := by
  unfold FindOrCreatePlayer
  rw [h]

/-- After a full player-status record, the table entry for the record's id
is the old record with `SetStatus` of the jitter-patched status applied. -/
theorem find?_playerStatus (w : WorldState) (status : PlayerStatus) (ts : Nat) :
    (OnConsoleLineParsed w (.PlayerStatusLine status ts)).m_CurrentPlayerData.find?
        (fun p => p.1 = status.m_SteamID) =
      some (status.m_SteamID,
        (FindOrCreatePlayer w.m_CurrentPlayerData status.m_SteamID).2.SetStatus
          { status with
            m_ConnectionTime :=
              connStep
                (FindOrCreatePlayer w.m_CurrentPlayerData
                  status.m_SteamID).2.m_Status.m_ConnectionTime
                status.m_ConnectionTime } ts) := by
  simp only [OnConsoleLineParsed]
  exact find?_updatePlayerData _ _ _ _ (find?_FindOrCreatePlayer _ _)

/-- `find?_playerStatus` through the `findPlayerData` lookup. -/
theorem playerStatus_stored (w : WorldState) (status : PlayerStatus) (ts : Nat) :
    findPlayerData
        (OnConsoleLineParsed w (.PlayerStatusLine status ts)).m_CurrentPlayerData
        status.m_SteamID =
      some ((FindOrCreatePlayer w.m_CurrentPlayerData status.m_SteamID).2.SetStatus
        { status with
          m_ConnectionTime :=
            connStep
              (FindOrCreatePlayer w.m_CurrentPlayerData
                status.m_SteamID).2.m_Status.m_ConnectionTime
              status.m_ConnectionTime } ts) := by
  simp only [findPlayerData]
  rw [find?_playerStatus]
  rfl

/-- The jitter-patched value never exceeds the raw reading by more than
one second. -/
theorem connStep_le_raw_succ (s r : Int) : connStep s r ≤ r + 1 := by
  unfold connStep; split_ifs <;> omega

/-- One jitter step cannot go below the previous stored value when the raw
readings are nondecreasing and the stored value was within one second of
the previous raw reading. -/
theorem le_connStep_of_prev (s prevRaw r : Int) (h1 : s ≤ prevRaw + 1)
    (h2 : prevRaw ≤ r) : s ≤ connStep s r := by
  unfold connStep; split_ifs <;> omega

/-- Auxiliary induction for `connTrace_chain`. -/
theorem connTrace_chain_aux (raws : List Int) :
    ∀ (prevRaw s : Int), s ≤ prevRaw + 1 →
      List.Chain' (· ≤ ·) (prevRaw :: raws) →
      List.Chain' (· ≤ ·) (s :: connTrace s raws) := by
  induction raws with
  | nil => intro _ _ _ _; simp [connTrace]
  | cons r rest ih =>
    intro prevRaw s hle hchain
    have hpr : prevRaw ≤ r := (List.chain'_cons.mp hchain).1
    have htail : List.Chain' (· ≤ ·) (r :: rest) := (List.chain'_cons.mp hchain).2
    rw [connTrace]
    rw [List.chain'_cons]
    exact ⟨le_connStep_of_prev s prevRaw r hle hpr,
      ih r (connStep s r) (connStep_le_raw_succ s r) htail⟩

/-- The jitter recurrence is monotone along nondecreasing raw readings. -/
theorem connTrace_chain (s : Int) (raws : List Int)
    (h : List.Chain' (· ≤ ·) raws) : List.Chain' (· ≤ ·) (connTrace s raws) := by
  cases raws with
  | nil => simp [connTrace]
  | cons r rest =>
    rw [connTrace]
    exact connTrace_chain_aux rest r (connStep s r) (connStep_le_raw_succ s r) h

/-- The world-level stored-connection-duration trace is the pure jitter
recurrence applied to the raw readings. -/
theorem storedConnTrace_eq_connTrace (id : SteamID) :
    ∀ (recs : List (PlayerStatus × Nat)) (w : WorldState),
      (∀ r ∈ recs, r.1.m_SteamID = id) →
      storedConnTrace w id recs =
        connTrace
          (FindOrCreatePlayer w.m_CurrentPlayerData id).2.m_Status.m_ConnectionTime
          (recs.map (fun r => r.1.m_ConnectionTime)) := by
  intro recs
  induction recs with
  | nil => intro w _; rfl
  | cons r rest ih =>
    intro w hid
    have hr : r.1.m_SteamID = id := hid r (by simp)
    have hfind := find?_playerStatus w r.1 r.2
    rw [hr] at hfind
    rw [storedConnTrace, List.map_cons, connTrace]
    congr 1
    · simp only [findPlayerData, hfind]
      rfl
    · rw [ih _ (fun q hq => hid q (by simp [hq]))]
      congr 1
      rw [FindOrCreatePlayer_snd_of_find? _ _ _ hfind]
      rfl

/-- The `Take100` loop takes a prefix. -/
theorem take100Loop_eq (l : List SteamID) :
    ∀ acc : List SteamID, acc.length ≤ 100 →
      Take100Loop acc l = acc ++ l.take (100 - acc.length) := by
  induction l with
  | nil => intro acc _; simp [Take100Loop]
  | cons id rest ih =>
    intro acc hacc
    by_cases h : 100 ≤ acc.length
    · have : acc.length = 100 := Nat.le_antisymm hacc h
      simp [Take100Loop, h, this]
    · have hlt : acc.length < 100 := Nat.lt_of_not_le h
      rw [Take100Loop, if_neg h, ih _ (by simp; omega)]
      have h1 : 100 - acc.length = (100 - (acc ++ [id]).length) + 1 := by
        simp; omega
      rw [h1, List.take_succ_cons, List.append_assoc]
      simp

/-- `Take100` is exactly the first 100 elements in collection order. -/
theorem take100_eq (c : List SteamID) : Take100 c = c.take 100 := by
  have := take100Loop_eq c [] (by simp)
  simpa [Take100] using this

/-- A chunk tail with no line feed produces no lines. -/
theorem chunkLinesLoop_no_newline (rest : List Char) (hr : '\n' ∉ rest) :
    ∀ cur, chunkLinesLoop cur rest = [] := by
  induction rest with
  | nil => intro cur; rfl
  | cons c t ih =>
    intro cur
    have hc : c ≠ '\n' := fun h => hr (h ▸ List.mem_cons_self c t)
    rw [chunkLinesLoop, if_neg hc]
    exact ih (fun h => hr (List.mem_cons_of_mem _ h)) _

/-- The split loop emits the pending text at the next line feed. -/
theorem chunkLinesLoop_piece (p : List Char) (hp : '\n' ∉ p) (t : List Char) :
    ∀ cur, chunkLinesLoop cur (p ++ '\n' :: t) = (cur ++ p) :: chunkLinesLoop [] t := by
  induction p with
  | nil => intro cur; simp [chunkLinesLoop]
  | cons c p' ih =>
    intro cur
    have hc : c ≠ '\n' := fun h => hp (h ▸ List.mem_cons_self c p')
    rw [List.cons_append, chunkLinesLoop, if_neg hc,
      ih (fun h => hp (List.mem_cons_of_mem _ h)) _]
    simp

/-- Successful lobby-member iteration yields exactly the valid,
predicate-passing members' players, and every such member has a player
record. -/
theorem yieldLobbyMembers_ok (players : List (SteamID × PlayerExtraData))
    (pred : LobbyMember → Bool) :
    ∀ (ms : List LobbyMember) (out : List PlayerExtraData),
      yieldLobbyMembers players pred ms = .ok out →
      out = (ms.filter (fun m => m.IsValid && pred m)).map
          (fun m => (findPlayerData players m.m_SteamID).getD default) ∧
      ∀ m ∈ ms, m.IsValid → pred m → findPlayerData players m.m_SteamID ≠ none := by
  intro ms
  induction ms with
  | nil =>
    intro out h
    simp only [yieldLobbyMembers] at h
    cases h
    exact ⟨rfl, by simp⟩
  | cons m rest ih =>
    intro out h
    by_cases hv : m.IsValid
    · by_cases hp : pred m
      · rw [yieldLobbyMembers, if_neg (by simp [hv]), if_neg (by simp [hp])] at h
        cases hpd : findPlayerData players m.m_SteamID with
        | none => rw [getPlayerForMember, hpd] at h; simp [bind, Except.bind] at h
        | some d =>
          rw [getPlayerForMember, hpd] at h
          cases hrec : yieldLobbyMembers players pred rest with
          | error e => rw [hrec] at h; simp [bind, Except.bind] at h
          | ok outr =>
            rw [hrec] at h
            simp only [bind, Except.bind, pure, Except.pure] at h
            cases h
            obtain ⟨hout, hmem⟩ := ih outr hrec
            constructor
            · rw [List.filter_cons_of_pos (by simp [hv, hp]), List.map_cons, hpd]
              simp [hout]
            · intro m' hm' hv' hp'
              rcases List.mem_cons.mp hm' with hm' | hm'
              · subst hm'; simp [hpd]
              · exact hmem m' hm' hv' hp'
      · rw [yieldLobbyMembers, if_neg (by simp [hv]), if_pos (by simp [hp])] at h
        obtain ⟨hout, hmem⟩ := ih out h
        constructor
        · rw [List.filter_cons_of_neg (by simp [hp]), hout]
        · intro m' hm' hv' hp'
          rcases List.mem_cons.mp hm' with hm' | hm'
          · subst hm'; exact absurd hp' hp
          · exact hmem m' hm' hv' hp'
    · rw [yieldLobbyMembers, if_pos (by simp [hv])] at h
      obtain ⟨hout, hmem⟩ := ih out h
      constructor
      · rw [List.filter_cons_of_neg (by simp [hv]), hout]
      · intro m' hm' hv' hp'
        rcases List.mem_cons.mp hm' with hm' | hm'
        · subst hm'; exact absurd hv' hv
        · exact hmem m' hm' hv' hp'

/-- The only error lobby-member iteration can produce is the
missing-player message. -/
theorem yieldLobbyMembers_error_msg (players : List (SteamID × PlayerExtraData))
    (pred : LobbyMember → Bool) :
    ∀ (ms : List LobbyMember) (e : String),
      yieldLobbyMembers players pred ms = .error e →
      e = "Missing player for lobby member!" := by
  intro ms
  induction ms with
  | nil => intro e h; simp [yieldLobbyMembers] at h
  | cons m rest ih =>
    intro e h
    by_cases hv : m.IsValid
    · by_cases hp : pred m
      · rw [yieldLobbyMembers, if_neg (by simp [hv]), if_neg (by simp [hp])] at h
        cases hpd : findPlayerData players m.m_SteamID with
        | none =>
          rw [getPlayerForMember, hpd] at h
          simp only [bind, Except.bind] at h
          cases h
          rfl
        | some d =>
          rw [getPlayerForMember, hpd] at h
          cases hrec : yieldLobbyMembers players pred rest with
          | error e' =>
            rw [hrec] at h
            simp only [bind, Except.bind] at h
            cases h
            exact ih _ hrec
          | ok outr =>
            rw [hrec] at h
            simp [bind, Except.bind, pure, Except.pure] at h
      · rw [yieldLobbyMembers, if_neg (by simp [hv]), if_pos (by simp [hp])] at h
        exact ih e h
    · rw [yieldLobbyMembers, if_pos (by simp [hv])] at h
      exact ih e h

/-- A reachable valid member without a player record forces the
missing-player error. -/
theorem yieldLobbyMembers_missing (players : List (SteamID × PlayerExtraData))
    (pred : LobbyMember → Bool) :
    ∀ ms : List LobbyMember,
      (∃ m ∈ ms, m.IsValid ∧ pred m ∧ findPlayerData players m.m_SteamID = none) →
      yieldLobbyMembers players pred ms = .error "Missing player for lobby member!" := by
  intro ms
  induction ms with
  | nil => intro h; simp at h
  | cons m rest ih =>
    intro ⟨m', hm', hv', hp', hpd'⟩
    by_cases hv : m.IsValid
    · by_cases hp : pred m
      · rw [yieldLobbyMembers, if_neg (by simp [hv]), if_neg (by simp [hp])]
        cases hpd : findPlayerData players m.m_SteamID with
        | none => rw [getPlayerForMember, hpd]; rfl
        | some d =>
          rw [getPlayerForMember, hpd]
          have hm'' : m' ∈ rest := by
            rcases List.mem_cons.mp hm' with h | h
            · subst h; rw [hpd'] at hpd; cases hpd
            · exact h
          rw [ih ⟨m', hm'', hv', hp', hpd'⟩]
          rfl
      · rw [yieldLobbyMembers, if_neg (by simp [hv]), if_pos (by simp [hp])]
        have hm'' : m' ∈ rest := by
          rcases List.mem_cons.mp hm' with h | h
          · subst h; exact absurd hp' hp
          · exact h
        exact ih ⟨m', hm'', hv', hp', hpd'⟩
    · rw [yieldLobbyMembers, if_pos (by simp [hv])]
      have hm'' : m' ∈ rest := by
        rcases List.mem_cons.mp hm' with h | h
        · subst h; exact absurd hv' hv
        · exact h
      exact ih ⟨m', hm'', hv', hp', hpd'⟩

/-- In a consistent table, a successful lookup returns a record whose own
id is the looked-up key. -/
theorem findPlayerData_GetSteamID (ps : List (SteamID × PlayerExtraData))
    (id : SteamID) (d : PlayerExtraData) (hcons : PlayerTableConsistent ps)
    (h : findPlayerData ps id = some d) : d.GetSteamID = id := by
  rw [findPlayerData] at h
  cases hfind : ps.find? (fun p => p.1 = id) with
  | none => rw [hfind] at h; simp at h
  | some pr =>
    rw [hfind] at h
    have hd : pr.2 = d := by simpa using h
    have h1 : pr.1 = id := by simpa using List.find?_some hfind
    have h2 : pr ∈ ps := List.mem_of_find?_eq_some hfind
    rw [← hd, PlayerExtraData.GetSteamID, hcons pr h2, h1]

/-- Characterization of the `FindSteamIDForName` scan loop: either no entry
beats the running `lastUpdated` bound and the accumulator survives, or the
result is the first entry realizing the maximal matching update time above
the bound. -/
theorem findSteamIDForNameLoop_spec (name : String) :
    ∀ (ps : List (SteamID × PlayerExtraData)) (acc : Option SteamID) (t : Nat),
      (findSteamIDForNameLoop name ps acc t = acc ∧
        ∀ p ∈ ps, p.2.m_Status.m_Name = name → p.2.m_LastStatusUpdateTime ≤ t) ∨
      (∃ l₁ p l₂, ps = l₁ ++ p :: l₂ ∧ p.2.m_Status.m_Name = name ∧
        t < p.2.m_LastStatusUpdateTime ∧
        findSteamIDForNameLoop name ps acc t = some p.2.GetSteamID ∧
        (∀ q ∈ l₁, q.2.m_Status.m_Name = name →
          q.2.m_LastStatusUpdateTime < p.2.m_LastStatusUpdateTime) ∧
        (∀ q ∈ l₂, q.2.m_Status.m_Name = name →
          q.2.m_LastStatusUpdateTime ≤ p.2.m_LastStatusUpdateTime)) := by
  intro ps
  induction ps with
  | nil => intro acc t; exact Or.inl ⟨rfl, by simp⟩
  | cons d rest ih =>
    intro acc t
    by_cases hcond : d.2.m_Status.m_Name = name ∧ d.2.m_LastStatusUpdateTime > t
    · rw [show findSteamIDForNameLoop name (d :: rest) acc t =
          findSteamIDForNameLoop name rest (some d.2.GetSteamID)
            d.2.m_LastStatusUpdateTime by
        rw [findSteamIDForNameLoop, if_pos hcond]]
      rcases ih (some d.2.GetSteamID) d.2.m_LastStatusUpdateTime with
        ⟨heq, hall⟩ | ⟨l₁, p, l₂, heqps, hname, htlt, hval, h1, h2⟩
      · exact Or.inr ⟨[], d, rest, rfl, hcond.1, hcond.2, heq, by simp, hall⟩
      · refine Or.inr ⟨d :: l₁, p, l₂, by rw [heqps]; rfl, hname, ?_, hval, ?_, h2⟩
        · exact Nat.lt_trans hcond.2 htlt
        · intro q hq hqname
          rcases List.mem_cons.mp hq with hq | hq
          · exact hq ▸ htlt
          · exact h1 q hq hqname
    · rw [show findSteamIDForNameLoop name (d :: rest) acc t =
          findSteamIDForNameLoop name rest acc t by
        rw [findSteamIDForNameLoop, if_neg hcond]]
      rcases ih acc t with ⟨heq, hall⟩ | ⟨l₁, p, l₂, heqps, hname, htlt, hval, h1, h2⟩
      · refine Or.inl ⟨heq, ?_⟩
        intro q hq hqname
        rcases List.mem_cons.mp hq with hq | hq
        · subst hq
          by_contra hgt
          exact hcond ⟨hqname, Nat.lt_of_not_le hgt⟩
        · exact hall q hq hqname
      · refine Or.inr ⟨d :: l₁, p, l₂, by rw [heqps]; rfl, hname, htlt, hval, ?_, h2⟩
        intro q hq hqname
        rcases List.mem_cons.mp hq with hq | hq
        · subst hq
          have hle : q.2.m_LastStatusUpdateTime ≤ t := by
            by_contra hgt
            exact hcond ⟨hqname, Nat.lt_of_not_le hgt⟩
          exact Nat.lt_of_le_of_lt hle htlt
        · exact h1 q hq hqname

/-! ## Claim theorems -/

/-- Claim C1, counterexample to the claim as stated: a sequence of status
records for one identifier whose successive raw connection-duration deltas
are all ±1 second (strictly under 2 seconds) on which the stored
connection duration oscillates 10, 10, 12, 12, 10, 10, 12 — it both
strictly rises and strictly falls, so it is neither nondecreasing nor
nonincreasing. -/
theorem jitter_oscillates_counterexample :
    List.Chain' (fun a b => a - b < 2 ∧ a - b > (-2 : Int))
      (exJitterRecs.map (fun r => r.1.m_ConnectionTime)) ∧
    storedConnTrace {} 1 exJitterRecs = [10, 10, 12, 12, 10, 10, 12] ∧
    ¬ List.Chain' (· ≤ ·) (storedConnTrace {} 1 exJitterRecs) ∧
    ¬ List.Chain' (fun a b : Int => b ≤ a) (storedConnTrace {} 1 exJitterRecs) := by
  have htr : storedConnTrace {} 1 exJitterRecs = [10, 10, 12, 12, 10, 10, 12] := by
    decide
  have hraw : exJitterRecs.map (fun r => r.1.m_ConnectionTime) =
      [10, 11, 12, 11, 10, 11, 12] := by decide
  refine ⟨?_, htr, ?_, ?_⟩
  · rw [hraw]
    simp [List.chain'_cons]
  · rw [htr]
    simp [List.chain'_cons]
  · rw [htr]
    simp [List.chain'_cons]

/-- Claim C1 (amended): per record, the stored connection duration is kept
exactly when the raw delta is strictly inside (-2s, 2s) and the rest of
the status is applied (`SetStatus` of the patched status); and for every
sequence of status records for one identifier whose raw connection
durations are nondecreasing, the stored connection duration is
nondecreasing (the as-stated "never oscillates under raw deltas < 2s"
fails, see the counterexample). -/
theorem playerStatus_jitter_suppression :
    (∀ (w : WorldState) (status : PlayerStatus) (ts : Nat),
      findPlayerData
          (OnConsoleLineParsed w (.PlayerStatusLine status ts)).m_CurrentPlayerData
          status.m_SteamID =
        some ((FindOrCreatePlayer w.m_CurrentPlayerData status.m_SteamID).2.SetStatus
          { status with
            m_ConnectionTime :=
              connStep
                (FindOrCreatePlayer w.m_CurrentPlayerData
                  status.m_SteamID).2.m_Status.m_ConnectionTime
                status.m_ConnectionTime } ts)) ∧
    (∀ old new : Int,
      (old - new < 2 ∧ old - new > -2 → connStep old new = old) ∧
      (¬(old - new < 2 ∧ old - new > -2) → connStep old new = new)) ∧
    (∀ (w : WorldState) (id : SteamID) (recs : List (PlayerStatus × Nat)),
      (∀ r ∈ recs, r.1.m_SteamID = id) →
      List.Chain' (· ≤ ·) (recs.map (fun r => r.1.m_ConnectionTime)) →
      List.Chain' (· ≤ ·) (storedConnTrace w id recs)) := by
  refine ⟨playerStatus_stored, ?_, ?_⟩
  · intro old new
    constructor
    · intro h; simp [connStep, h]
    · intro h; simp only [connStep, if_neg h]
  · intro w id recs hid hchain
    rw [storedConnTrace_eq_connTrace id recs w hid]
    exact connTrace_chain _ _ hchain

/-- Claim C1 witness: on the concrete nondecreasing raw sequence
10, 11, 12, 13 for player 1, the stored connection durations are
nondecreasing. -/
theorem playerStatus_jitter_suppression_witness :
    List.Chain' (· ≤ ·) (storedConnTrace {} 1 exRisingRecs) :=
  playerStatus_jitter_suppression.2.2 {} 1 exRisingRecs (by decide)
    (by
      have hraw : exRisingRecs.map (fun r => r.1.m_ConnectionTime) =
          [10, 11, 12, 13] := by decide
      rw [hraw]
      simp [List.chain'_cons])

/-- Claim C2: team-relationship classification returns `Neither`
(the spec's `Unknown`) exactly when a side is absent, `SameTeams` exactly
when both are present and equal, `OppositeTeams` exactly when both are
present and one is the opposite of the other, and the distinguishable
fatal error (the source's `throw std::runtime_error`) exactly when both
are present but neither equal nor opposite. -/
theorem GetTeamShareResult_classification :
    ∀ team0 team1 : Option LobbyMemberTeam,
      (GetTeamShareResult team0 team1 = .ok .Neither ↔ team0 = none ∨ team1 = none) ∧
      (GetTeamShareResult team0 team1 = .ok .SameTeams ↔
        ∃ a, team0 = some a ∧ team1 = some a) ∧
      (GetTeamShareResult team0 team1 = .ok .OppositeTeams ↔
        ∃ a b, team0 = some a ∧ team1 = some b ∧ a = OppositeTeam b) ∧
      (GetTeamShareResult team0 team1 = .error "Unexpected team value(s)" ↔
        ∃ a b, team0 = some a ∧ team1 = some b ∧ a ≠ b ∧ a ≠ OppositeTeam b) := by
  decide

/-- Claim C3, counterexample to the claim as stated: with two players both
named "a" tied at update time 5, resolution returns id 1, whose timestamp
is not strictly later than the other match's; and with a single player
named "b" whose update time is still the default epoch value, resolution
returns nothing even though a name match exists. -/
theorem findSteamIDForName_claim_counterexample :
    (FindSteamIDForName exTieWorld "a" = some 1 ∧
      ¬ ∃ p ∈ exTieWorld.m_CurrentPlayerData, p.2.GetSteamID = 1 ∧
          p.2.m_Status.m_Name = "a" ∧
          ∀ q ∈ exTieWorld.m_CurrentPlayerData, q.2.m_Status.m_Name = "a" →
            q.2.GetSteamID ≠ 1 →
            q.2.m_LastStatusUpdateTime < p.2.m_LastStatusUpdateTime) ∧
    (FindSteamIDForName exEpochWorld "b" = none ∧
      ∃ p ∈ exEpochWorld.m_CurrentPlayerData, p.2.m_Status.m_Name = "b") := by
  decide

/-- Claim C3 (amended): `FindSteamIDForName` returns nothing exactly when
every name-matching player still has the default (epoch, `0`) last-status-
update time; otherwise it returns the identifier of the first player in
table order achieving the maximal last-status-update time among matches
(strictly later than all earlier matches, at least as late as all later
ones, and strictly later than the epoch). -/
theorem findSteamIDForName_spec (w : WorldState) (name : String) :
    (FindSteamIDForName w name = none ↔
      ∀ p ∈ w.m_CurrentPlayerData, p.2.m_Status.m_Name = name →
        p.2.m_LastStatusUpdateTime = 0) ∧
    (∀ id, FindSteamIDForName w name = some id →
      ∃ l₁ p l₂, w.m_CurrentPlayerData = l₁ ++ p :: l₂ ∧
        p.2.m_Status.m_Name = name ∧ 0 < p.2.m_LastStatusUpdateTime ∧
        id = p.2.GetSteamID ∧
        (∀ q ∈ l₁, q.2.m_Status.m_Name = name →
          q.2.m_LastStatusUpdateTime < p.2.m_LastStatusUpdateTime) ∧
        (∀ q ∈ l₂, q.2.m_Status.m_Name = name →
          q.2.m_LastStatusUpdateTime ≤ p.2.m_LastStatusUpdateTime)) := by
  constructor
  · constructor
    · intro hnone p hp hpname
      rcases findSteamIDForNameLoop_spec name w.m_CurrentPlayerData none 0 with
        ⟨_, hall⟩ | ⟨l₁, q, l₂, _, _, _, hval, _, _⟩
      · exact Nat.le_zero.mp (hall p hp hpname)
      · rw [FindSteamIDForName] at hnone
        rw [hnone] at hval
        exact absurd hval (by simp)
    · intro hall
      rcases findSteamIDForNameLoop_spec name w.m_CurrentPlayerData none 0 with
        ⟨heq, _⟩ | ⟨l₁, q, l₂, heqps, hqname, htlt, hval, _, _⟩
      · exact heq
      · have : q ∈ w.m_CurrentPlayerData := by
          rw [heqps]; exact List.mem_append_right _ (List.mem_cons_self _ _)
        have := hall q this hqname
        omega
  · intro id hid
    rcases findSteamIDForNameLoop_spec name w.m_CurrentPlayerData none 0 with
      ⟨heq, _⟩ | ⟨l₁, q, l₂, heqps, hqname, htlt, hval, h1, h2⟩
    · rw [FindSteamIDForName] at hid
      rw [heq] at hid
      exact absurd hid (by simp)
    · rw [FindSteamIDForName] at hid
      rw [hval] at hid
      exact ⟨l₁, q, l₂, heqps, hqname, htlt, (Option.some_inj.mp hid).symm, h1, h2⟩

/-- Claim C3 witness: on a table with players named "a" at times 5 and 7,
the returned id 2 decomposes the table with the time-7 player as the
strict maximum. -/
theorem findSteamIDForName_spec_witness :
    ∃ l₁ p l₂, exFreshWorld.m_CurrentPlayerData = l₁ ++ p :: l₂ ∧
      p.2.m_Status.m_Name = "a" ∧ 0 < p.2.m_LastStatusUpdateTime ∧
      (2 : SteamID) = p.2.GetSteamID ∧
      (∀ q ∈ l₁, q.2.m_Status.m_Name = "a" →
        q.2.m_LastStatusUpdateTime < p.2.m_LastStatusUpdateTime) ∧
      (∀ q ∈ l₂, q.2.m_Status.m_Name = "a" →
        q.2.m_LastStatusUpdateTime ≤ p.2.m_LastStatusUpdateTime) :=
  (findSteamIDForName_spec exFreshWorld "a").2 2 (by decide)

/-- Claim C4: a lobby-status-failure record is a strict no-op on the whole
session state when both slot sequences are empty, and otherwise clears
exactly the two slot sequences and the player table, leaving every other
field unchanged. -/
theorem lobbyStatusFailed_reset :
    ∀ w : WorldState,
      (w.m_CurrentLobbyMembers = [] ∧ w.m_PendingLobbyMembers = [] →
        OnConsoleLineParsed w .LobbyStatusFailed = w) ∧
      (w.m_CurrentLobbyMembers ≠ [] ∨ w.m_PendingLobbyMembers ≠ [] →
        OnConsoleLineParsed w .LobbyStatusFailed =
          { w with
            m_CurrentLobbyMembers := []
            m_PendingLobbyMembers := []
            m_CurrentPlayerData := [] }) := by
  intro w
  constructor
  · intro h
    simp [OnConsoleLineParsed, h.1, h.2]
  · intro h
    simp only [OnConsoleLineParsed]
    rw [if_pos]
    simp only [Bool.or_eq_true, Bool.not_eq_true', List.isEmpty_eq_false_iff_exists_mem]
    rcases h with h | h
    · exact Or.inl (by rcases List.exists_mem_of_ne_nil _ h with ⟨x, hx⟩; exact ⟨x, hx⟩)
    · exact Or.inr (by rcases List.exists_mem_of_ne_nil _ h with ⟨x, hx⟩; exact ⟨x, hx⟩)

/-- Claim C4 witness: the reset fires on a state with an occupied
confirmed slot (clearing the three containers, keeping the vote flag), and
a fresh state is left exactly unchanged. -/
theorem lobbyStatusFailed_reset_witness :
    OnConsoleLineParsed exWorldNonEmptyLobby .LobbyStatusFailed =
      { exWorldNonEmptyLobby with
        m_CurrentLobbyMembers := []
        m_PendingLobbyMembers := []
        m_CurrentPlayerData := [] } ∧
    OnConsoleLineParsed {} .LobbyStatusFailed = {} :=
  ⟨(lobbyStatusFailed_reset exWorldNonEmptyLobby).2 (Or.inl (by decide)),
   (lobbyStatusFailed_reset {}).1 ⟨rfl, rfl⟩⟩

/-- Claim C5, counterexample to the "sizes are controlled solely by the
most recent lobby-header resize" clause: after a header declaring 2+2
slots, a lobby-status-failure record drops both sizes to 0, so a
subsequent member record at index 1 — in bounds per the most recent
header — is not written. -/
theorem lobbyMember_solelyHeader_counterexample :
    exClearedWorld.m_CurrentLobbyMembers.length = 0 ∧ (0 : Nat) ≠ 2 ∧
    (OnConsoleLineParsed exClearedWorld (.LobbyMemberLine exMemberIdx1)).m_CurrentLobbyMembers
      = [] := by
  decide

/-- Claim C5 (amended): a lobby-member record writes its slot sequence at
the declared index exactly when the index is strictly below that
sequence's current size and never touches the other sequence; and the slot
sequence sizes evolve only by lobby-header resizes (to the declared
counts) and full lobby resets (to zero) — never by member writes
(`slotSizesAfter`). -/
theorem lobbyMember_write_bounds :
    (∀ (w : WorldState) (member : LobbyMember),
      (member.m_Pending = true →
        (member.m_Index < w.m_PendingLobbyMembers.length →
          (OnConsoleLineParsed w (.LobbyMemberLine member)).m_PendingLobbyMembers =
            w.m_PendingLobbyMembers.set member.m_Index member) ∧
        (w.m_PendingLobbyMembers.length ≤ member.m_Index →
          (OnConsoleLineParsed w (.LobbyMemberLine member)).m_PendingLobbyMembers =
            w.m_PendingLobbyMembers) ∧
        (OnConsoleLineParsed w (.LobbyMemberLine member)).m_CurrentLobbyMembers =
          w.m_CurrentLobbyMembers) ∧
      (member.m_Pending = false →
        (member.m_Index < w.m_CurrentLobbyMembers.length →
          (OnConsoleLineParsed w (.LobbyMemberLine member)).m_CurrentLobbyMembers =
            w.m_CurrentLobbyMembers.set member.m_Index member) ∧
        (w.m_CurrentLobbyMembers.length ≤ member.m_Index →
          (OnConsoleLineParsed w (.LobbyMemberLine member)).m_CurrentLobbyMembers =
            w.m_CurrentLobbyMembers) ∧
        (OnConsoleLineParsed w (.LobbyMemberLine member)).m_PendingLobbyMembers =
          w.m_PendingLobbyMembers)) ∧
    (∀ (w : WorldState) (line : ConsoleLine),
      ((OnConsoleLineParsed w line).m_CurrentLobbyMembers.length,
        (OnConsoleLineParsed w line).m_PendingLobbyMembers.length) =
        slotSizesAfter line
          (w.m_CurrentLobbyMembers.length, w.m_PendingLobbyMembers.length)) := by
  constructor
  · intro w member
    constructor
    · intro hpend
      refine ⟨fun hlt => ?_, fun hge => ?_, ?_⟩
      · simp [OnConsoleLineParsed, hpend, updatePlayerData, hlt]
      · simp [OnConsoleLineParsed, hpend, updatePlayerData, Nat.not_lt.mpr hge]
      · simp only [OnConsoleLineParsed, hpend, updatePlayerData]
        split_ifs <;> simp_all
    · intro hpend
      refine ⟨fun hlt => ?_, fun hge => ?_, ?_⟩
      · simp [OnConsoleLineParsed, hpend, updatePlayerData, hlt]
      · simp [OnConsoleLineParsed, hpend, updatePlayerData, Nat.not_lt.mpr hge]
      · simp only [OnConsoleLineParsed, hpend, updatePlayerData]
        split_ifs <;> simp_all
  · intro w line
    cases line with
    | LobbyHeader mc pc =>
      simp [OnConsoleLineParsed, slotSizesAfter, resizeMembers]
      omega
    | LobbyStatusFailed =>
      simp only [OnConsoleLineParsed, slotSizesAfter]
      split_ifs with h
      · rfl
      · simp only [Bool.or_eq_true, Bool.not_eq_true'] at h
        push_neg at h
        simp only [ne_eq, Bool.not_eq_false, List.isEmpty_iff] at h
        simp [h.1, h.2]
    | LobbyChanged ct =>
      simp only [OnConsoleLineParsed, slotSizesAfter]
      split_ifs with h1 h2 h2 <;> simp_all
    | LobbyMemberLine member =>
      simp only [OnConsoleLineParsed, slotSizesAfter]
      split_ifs <;> simp [updatePlayerData]
    | PlayerStatusLine status ts =>
      simp [OnConsoleLineParsed, slotSizesAfter, updatePlayerData]

/-- Claim C5 witness: after a 2+2 lobby header, a pending member record at
index 1 is written into the pending sequence, and the member line leaves
both sequence sizes unchanged. -/
theorem lobbyMember_write_bounds_witness :
    (OnConsoleLineParsed exHeaderWorld (.LobbyMemberLine exMemberP)).m_PendingLobbyMembers =
      exHeaderWorld.m_PendingLobbyMembers.set 1 exMemberP ∧
    ((OnConsoleLineParsed exHeaderWorld
        (.LobbyMemberLine exMemberP)).m_CurrentLobbyMembers.length,
      (OnConsoleLineParsed exHeaderWorld
        (.LobbyMemberLine exMemberP)).m_PendingLobbyMembers.length) =
      slotSizesAfter (.LobbyMemberLine exMemberP)
        (exHeaderWorld.m_CurrentLobbyMembers.length,
          exHeaderWorld.m_PendingLobbyMembers.length) :=
  ⟨((lobbyMember_write_bounds.1 exHeaderWorld exMemberP).1 rfl).1 (by decide),
   lobbyMember_write_bounds.2 exHeaderWorld (.LobbyMemberLine exMemberP)⟩

/-- Claim C6, counterexample to "no two yielded entries ever share an
identifier": two valid pending slots both occupied by id 7 (and no
confirmed slots) make the iteration yield the same player twice — the
duplicate suppression only checks pending occupants against confirmed
slots, not against other pending slots. -/
theorem getLobbyMembers_dup_counterexample :
    GetLobbyMembers exDupWorld =
      .ok [PlayerExtraData.init 7, PlayerExtraData.init 7] ∧
    (PlayerExtraData.init 7).GetSteamID = 7 := by
  decide

/-- Claim C6 (amended): a successful lobby-member iteration yields the
valid confirmed-slot occupants first, then exactly those valid
pending-slot occupants whose identifier appears in no confirmed slot, so
no yielded pending entry shares an identifier with any yielded confirmed
entry (two confirmed slots, or two pending slots, sharing an identifier
can still both be yielded, as the counterexample shows). -/
theorem getLobbyMembers_dedup (w : WorldState) (out : List PlayerExtraData)
    (hcons : PlayerTableConsistent w.m_CurrentPlayerData)
    (h : GetLobbyMembers w = .ok out) :
    out = (w.m_CurrentLobbyMembers.filter (fun m => m.IsValid)).map
        (fun m => (findPlayerData w.m_CurrentPlayerData m.m_SteamID).getD default)
      ++ (w.m_PendingLobbyMembers.filter
            (fun m => m.IsValid && notInCurrentLobby w.m_CurrentLobbyMembers m)).map
          (fun m => (findPlayerData w.m_CurrentPlayerData m.m_SteamID).getD default) ∧
    ∀ pc ∈ (w.m_CurrentLobbyMembers.filter (fun m => m.IsValid)).map
        (fun m => (findPlayerData w.m_CurrentPlayerData m.m_SteamID).getD default),
      ∀ pp ∈ (w.m_PendingLobbyMembers.filter
            (fun m => m.IsValid && notInCurrentLobby w.m_CurrentLobbyMembers m)).map
          (fun m => (findPlayerData w.m_CurrentPlayerData m.m_SteamID).getD default),
        pc.GetSteamID ≠ pp.GetSteamID := by
  cases hcur : yieldLobbyMembers w.m_CurrentPlayerData (fun _ => true)
      w.m_CurrentLobbyMembers with
  | error e => simp [GetLobbyMembers, hcur, bind, Except.bind] at h
  | ok c =>
    cases hpend : yieldLobbyMembers w.m_CurrentPlayerData
        (notInCurrentLobby w.m_CurrentLobbyMembers) w.m_PendingLobbyMembers with
    | error e => simp [GetLobbyMembers, hcur, hpend, bind, Except.bind] at h
    | ok p =>
      have hout : out = c ++ p := by
        simp only [GetLobbyMembers, hcur, hpend, bind, Except.bind, pure,
          Except.pure] at h
        cases h
        rfl
      obtain ⟨hc, hcmem⟩ := yieldLobbyMembers_ok _ _ _ _ hcur
      obtain ⟨hp, hpmem⟩ := yieldLobbyMembers_ok _ _ _ _ hpend
      have hfilter : (fun m : LobbyMember => m.IsValid && (fun _ => true) m) =
          (fun m : LobbyMember => m.IsValid) := by
        funext m; simp
      rw [hfilter] at hc
      constructor
      · rw [hout, hc, hp]
      · intro pc hpc pp hpp
        obtain ⟨mc, hmc, hpceq⟩ := List.mem_map.mp hpc
        obtain ⟨mp, hmp, hppeq⟩ := List.mem_map.mp hpp
        have hmcv : mc.IsValid := (List.mem_filter.mp hmc).2
        have hmcmem : mc ∈ w.m_CurrentLobbyMembers := (List.mem_filter.mp hmc).1
        have hmpflt := (List.mem_filter.mp hmp).2
        have hmpmem : mp ∈ w.m_PendingLobbyMembers := (List.mem_filter.mp hmp).1
        have hmpv : mp.IsValid := by
          rcases Bool.and_eq_true_iff.mp hmpflt with ⟨h1, _⟩
          exact h1
        have hmpnic : notInCurrentLobby w.m_CurrentLobbyMembers mp := by
          rcases Bool.and_eq_true_iff.mp hmpflt with ⟨_, h2⟩
          exact h2
        have hcne := hcmem mc hmcmem hmcv rfl
        have hpne := hpmem mp hmpmem hmpv hmpnic
        cases hdc : findPlayerData w.m_CurrentPlayerData mc.m_SteamID with
        | none => exact absurd hdc hcne
        | some dc =>
          cases hdp : findPlayerData w.m_CurrentPlayerData mp.m_SteamID with
          | none => exact absurd hdp hpne
          | some dp =>
            have hpcid : pc.GetSteamID = mc.m_SteamID := by
              rw [← hpceq, hdc]
              exact findPlayerData_GetSteamID _ _ _ hcons hdc
            have hppid : pp.GetSteamID = mp.m_SteamID := by
              rw [← hppeq, hdp]
              exact findPlayerData_GetSteamID _ _ _ hcons hdp
            rw [hpcid, hppid]
            intro heq
            have : ∀ m2 ∈ w.m_CurrentLobbyMembers, ¬(mp.m_SteamID = m2.m_SteamID) := by
              simpa [notInCurrentLobby, List.any_eq_true] using hmpnic
            exact this mc hmcmem heq.symm

/-- Claim C6 witness: on a lobby with confirmed occupant 1 and pending
occupants 1 and 2, the yield is occupant 1's record then occupant 2's
record, and no pending yield shares an identifier with a confirmed one. -/
theorem getLobbyMembers_dedup_witness :
    [PlayerExtraData.init 1, PlayerExtraData.init 2] =
      (exLobbyWorld.m_CurrentLobbyMembers.filter (fun m => m.IsValid)).map
        (fun m => (findPlayerData exLobbyWorld.m_CurrentPlayerData m.m_SteamID).getD default)
      ++ (exLobbyWorld.m_PendingLobbyMembers.filter
            (fun m => m.IsValid && notInCurrentLobby exLobbyWorld.m_CurrentLobbyMembers m)).map
          (fun m => (findPlayerData exLobbyWorld.m_CurrentPlayerData m.m_SteamID).getD default) ∧
    ∀ pc ∈ (exLobbyWorld.m_CurrentLobbyMembers.filter (fun m => m.IsValid)).map
        (fun m => (findPlayerData exLobbyWorld.m_CurrentPlayerData m.m_SteamID).getD default),
      ∀ pp ∈ (exLobbyWorld.m_PendingLobbyMembers.filter
            (fun m => m.IsValid && notInCurrentLobby exLobbyWorld.m_CurrentLobbyMembers m)).map
          (fun m => (findPlayerData exLobbyWorld.m_CurrentPlayerData m.m_SteamID).getD default),
        pc.GetSteamID ≠ pp.GetSteamID :=
  getLobbyMembers_dedup exLobbyWorld [PlayerExtraData.init 1, PlayerExtraData.init 2]
    (by unfold PlayerTableConsistent; decide) (by decide)

/-- Claim C7: a batch request takes at most 100 pending identifiers — the
oldest-enqueued 100 (the prefix, in the spec-modelled insertion-ordered
pending collection) — and `SendRequest` leaves the pending collection
untouched, so every identifier beyond the taken prefix (indeed, every
identifier) is still pending for a later cycle. -/
theorem sendRequest_batch_cap (ctx : APIContext) (collection : List SteamID) :
    (SendRequest ctx collection).2 = collection ∧
    ∀ ids, (SendRequest ctx collection).1 = some ids →
      ids = collection.take 100 ∧ ids.length ≤ 100 ∧
      ∀ x ∈ collection, x ∉ ids → x ∈ (SendRequest ctx collection).2 := by
  unfold SendRequest
  split_ifs with h1 h2 <;>
    simp_all [take100_eq, Nat.min_le_left]

set_option maxRecDepth 10000 in
/-- Claim C7 witness: with 250 queued identifiers, the issued batch is the
first 100, its length is at most 100, and the pending collection is
unchanged. -/
theorem sendRequest_batch_cap_witness :
    ((List.range 250).take 100).length ≤ 100 ∧
    (SendRequest ⟨true, false⟩ (List.range 250)).2 = List.range 250 := by
  have h := sendRequest_batch_cap ⟨true, false⟩ (List.range 250)
  exact ⟨(h.2 ((List.range 250).take 100) (by decide)).2.1, h.1⟩

/-- Claim C8, counterexample to the stability conjunct as stated:
`exUnstableSort` satisfies everything `std::sort` guarantees for the
descending comparator (the output is a sorted permutation), yet on a
table whose two distinct players share a last-status-update timestamp the
query returns them in reversed table order.  "Equal-timestamp players
keep their prior relative order" is therefore not a property of the
program — `std::sort` gives no stability guarantee — but at best of one
particular `std::sort` implementation. -/
theorem getRecentPlayers_stability_counterexample :
    StdSortSpec exUnstableSort ∧
    exTieWorld.m_CurrentPlayerData.map (·.2) = [exTiePlayer 1, exTiePlayer 2] ∧
    GetRecentPlayers exUnstableSort exTieWorld 2 = [exTiePlayer 2, exTiePlayer 1] ∧
    (exTiePlayer 1).m_LastStatusUpdateTime = (exTiePlayer 2).m_LastStatusUpdateTime ∧
    exTiePlayer 1 ≠ exTiePlayer 2 := by
  refine ⟨fun l => ⟨(List.perm_insertionSort _ _).trans l.reverse_perm,
    List.sorted_insertionSort _ _⟩, ?_, ?_, ?_, ?_⟩ <;> decide

/-- Claim C8 (amended): for every sort satisfying the `std::sort`
contract, the most-recently-updated-N query is the first `n` entries of a
permutation of the table's players sorted descending by last status
update: it has at most `n` entries and is sorted descending.  The
relative order of equal-timestamp players is unspecified (see the
counterexample), so the claim's stability conjunct is dropped. -/
theorem getRecentPlayers_sorted (sortImpl : List PlayerExtraData → List PlayerExtraData)
    (hs : StdSortSpec sortImpl) (w : WorldState) (n : Nat) :
    GetRecentPlayers sortImpl w n =
      (sortImpl (w.m_CurrentPlayerData.map (·.2))).take n ∧
    (GetRecentPlayers sortImpl w n).length ≤ n ∧
    (sortImpl (w.m_CurrentPlayerData.map (·.2))).Perm
      (w.m_CurrentPlayerData.map (·.2)) ∧
    (GetRecentPlayers sortImpl w n).Sorted recentOrder := by
  refine ⟨rfl, ?_, (hs _).1, ?_⟩
  · simp [GetRecentPlayers, GetRecentPlayersImpl]
  · exact ((hs _).2).sublist (List.take_sublist _ _)

/-- Claim C8 witness: with the conforming stable insertion sort on the
two-player tied table, the count-1 query returns at most one entry and is
sorted descending. -/
theorem getRecentPlayers_sorted_witness :
    (GetRecentPlayers exStableSort exTieWorld 1).length ≤ 1 ∧
    (GetRecentPlayers exStableSort exTieWorld 1).Sorted recentOrder := by
  have h := getRecentPlayers_sorted exStableSort
    (fun l => ⟨List.perm_insertionSort _ _, List.sorted_insertionSort _ _⟩)
    exTieWorld 1
  exact ⟨h.2.1, h.2.2.2⟩

/-- Claim C9: pushing a chunk assembled from line-feed-terminated pieces
and an unterminated remainder dispatches exactly the pieces, in order —
each parsed piece to the parsed-line listeners, each unparsed piece to the
unparsed-line listeners — and the remainder (the whole chunk when it has
no line feed) is silently discarded. -/
theorem addConsoleOutputChunk_dispatch (parse : List Char → Option ConsoleLine)
    (pieces : List (List Char)) (rest : List Char)
    (hp : ∀ p ∈ pieces, '\n' ∉ p) (hr : '\n' ∉ rest) :
    AddConsoleOutputChunk parse (assembleChunk pieces rest) =
      pieces.map (AddConsoleOutputLine parse) := by
  induction pieces with
  | nil =>
    simp only [AddConsoleOutputChunk, assembleChunk, chunkLines, List.map_nil,
      List.flatten_nil, List.nil_append]
    rw [chunkLinesLoop_no_newline rest hr]
    rfl
  | cons p ps ih =>
    simp only [AddConsoleOutputChunk, assembleChunk, chunkLines, List.map_cons,
      List.flatten_cons, List.append_assoc] at *
    rw [List.singleton_append, chunkLinesLoop_piece p (hp p (by simp)) _]
    simp only [List.nil_append, List.map_cons]
    congr 1
    exact ih (fun q hq => hp q (by simp [hq]))

/-- Claim C9 witness: the chunk "a\nbc\nx" (with an always-failing parser)
dispatches exactly the two unparsed lines "a" and "bc"; the trailing "x"
is dropped. -/
theorem addConsoleOutputChunk_dispatch_witness :
    AddConsoleOutputChunk (fun _ => none) (assembleChunk [['a'], ['b', 'c']] ['x']) =
      [ConLogEvent.unparsedLine ['a'], ConLogEvent.unparsedLine ['b', 'c']] :=
  (addConsoleOutputChunk_dispatch (fun _ => none) [['a'], ['b', 'c']] ['x']
    (by decide) (by decide)).trans rfl

/-- Claim C10: if any valid confirmed-slot occupant — or any valid,
non-duplicate pending-slot occupant reached by the iteration — has no
record in the player table, lobby-member iteration aborts with the runtime
error "Missing player for lobby member!" instead of skipping the occupant
or creating a record. -/
theorem getLobbyMembers_missing_player (w : WorldState)
    (h : (∃ m ∈ w.m_CurrentLobbyMembers, m.IsValid ∧
            findPlayerData w.m_CurrentPlayerData m.m_SteamID = none) ∨
         (∃ m ∈ w.m_PendingLobbyMembers, m.IsValid ∧
            notInCurrentLobby w.m_CurrentLobbyMembers m ∧
            findPlayerData w.m_CurrentPlayerData m.m_SteamID = none)) :
    GetLobbyMembers w = .error "Missing player for lobby member!" := by
  rcases h with ⟨m, hm, hv, hpd⟩ | ⟨m, hm, hv, hnic, hpd⟩
  · have hcur := yieldLobbyMembers_missing w.m_CurrentPlayerData (fun _ => true)
      w.m_CurrentLobbyMembers ⟨m, hm, hv, rfl, hpd⟩
    simp [GetLobbyMembers, hcur, bind, Except.bind]
  · have hpend := yieldLobbyMembers_missing w.m_CurrentPlayerData
      (notInCurrentLobby w.m_CurrentLobbyMembers)
      w.m_PendingLobbyMembers ⟨m, hm, hv, hnic, hpd⟩
    cases hcur : yieldLobbyMembers w.m_CurrentPlayerData (fun _ => true)
        w.m_CurrentLobbyMembers with
    | error e =>
      have := yieldLobbyMembers_error_msg w.m_CurrentPlayerData (fun _ => true)
        w.m_CurrentLobbyMembers e hcur
      subst this
      simp [GetLobbyMembers, hcur, bind, Except.bind]
    | ok c =>
      simp [GetLobbyMembers, hcur, hpend, bind, Except.bind]

/-- Claim C10 witness: a valid confirmed occupant with id 5 and an empty
player table makes the iteration throw the missing-player error. -/
theorem getLobbyMembers_missing_player_witness :
    GetLobbyMembers exMissingWorld = .error "Missing player for lobby member!" :=
  getLobbyMembers_missing_player exMissingWorld
    (Or.inl ⟨{ m_SteamID := 5, m_Valid := true }, by decide, by decide, by decide⟩)

end TF2BD
